import Mathlib

/-!
Shallow embedding of `step0_parse_and_copy_m3u8_Version2.py` (class `M3U8Importer`).

Modelling conventions:
* Strings are `List Char` (`Str`), file contents are an abstract `(size, hash)`
  pair (`Content`): the MD5 digest of the source is injective on contents, which
  is exactly the identity role the program gives it (`_files_identical` compares
  sizes first, then MD5 digests).
* The destination tree is a finite map from target paths to contents (`FS`);
  `shutil.copy2` becomes `FS.write`.  Paths are structured as
  artist-directory / album-directory / filename, mirroring
  `target_base_dir / artist_clean / album_clean / filename`.
* External collaborators (mutagen, the OS path resolver) are oracles carried by
  the input: each playlist line carries its resolution outcome, each source file
  carries the outcome of `MutagenFile` (`AudioResult`) and whether `shutil.copy2`
  would fail on it (`copyFails`).  `int(...)` and `str.strip()` are modelled by
  `pyInt` / `stripBoth` on their documented behaviour (without the
  underscore-digit-separator extension of `int`).
* Logging, directory creation and report persistence have no effect on any
  claim and are not modelled; `save_results` failure is caught inside
  `save_results` itself, so `run`'s return value does not depend on it.
-/

/-- Python strings, as lists of characters. -/
abbrev Str := List Char

/-- Abstract file content: the byte size together with the MD5 digest.
`_files_identical` in the source decides equality by size, then digest. -/
structure Content where
  size : Nat
  hash : Nat
deriving DecidableEq, Repr

/-- A destination path: `target_base_dir / artist / album / fname`. -/
structure TPath where
  artist : Str
  album : Str
  fname : Str
deriving DecidableEq, Repr

/-- The destination tree: association list from paths to contents
(newest binding first). -/
abbrev FS := List (TPath × Content)

/-- Lookup in the destination tree (`Path.exists` / reading a file). -/
def FS.find : FS → TPath → Option Content
  | [], _ => none
  | (q, c) :: t, p => if q = p then some c else FS.find t p

/-- `shutil.copy2 source target`: a byte copy of the source content to the
target path.  (In every reachable call the target does not yet exist.) -/
def FS.write (fs : FS) (p : TPath) (c : Content) : FS := (p, c) :: fs

/-- Characters stripped by `str.strip()` (whitespace). -/
def isWsChar (c : Char) : Bool := c == ' ' || c == '\t' || c == '\n' || c == '\r'

/-- Characters stripped by `.strip(' .')` in `sanitize_filename`. -/
def isStripChar (c : Char) : Bool := c == ' ' || c == '.'

/-- Strip matching characters from the tail of a list
(the right half of Python `str.strip`). -/
def dropTrailing (p : Char → Bool) (l : Str) : Str :=
  (l.reverse.dropWhile p).reverse

/-- Python `str.strip(chars)`: drop matching characters from both ends. -/
def stripBoth (p : Char → Bool) (l : Str) : Str :=
  dropTrailing p (l.dropWhile p)

/-- The per-character substitution of `sanitize_filename`'s `illegal_chars`
table.  The table's ninth entry maps the double quote to itself (both sides
of `'"': '"'` are the ASCII quote, byte 0x22), so that `str.replace` call is
a no-op and the quote is left unchanged; only the other eight entries
substitute a character.  The nine sequential `str.replace` calls are
equivalent to one character-wise map because no replacement character is
itself a key of the table. -/
def replChar (c : Char) : Char :=
  if c = '/' then '∕'
  else if c = ':' then '∶'
  else if c = '\\' then '⧵'
  else if c = '?' then '？'
  else if c = '*' then '＊'
  else if c = '<' then '＜'
  else if c = '>' then '＞'
  else if c = '|' then '｜'
  else c

/-- `M3U8Importer.sanitize_filename`: empty input gives `Unknown`; otherwise
replace illegal characters, strip leading/trailing spaces and dots, and fall
back to `Unknown` when the result is empty. -/
def sanitize_filename (name : Str) : Str :=
  if name.isEmpty then ("Unknown".toList)
  else
    let n1 := name.map replChar
    let n2 := stripBoth isStripChar n1
    if n2.isEmpty then ("Unknown".toList) else n2

/-- Metadata record, fields in the order of the `metadata` dict of
`extract_metadata`.  All values are optional strings (`track_number` is
passed through `str(...)` before use, so a string models it). -/
structure Metadata where
  artist : Option Str
  album_artist : Option Str
  album : Option Str
  title : Option Str
  track_number : Option Str
  year : Option Str
  genre : Option Str
deriving DecidableEq, Repr

/-- The `metadata` dict as initialised at the top of `extract_metadata`. -/
def emptyMetadata : Metadata := ⟨none, none, none, none, none, none, none⟩

/-- The cleanup loop of `extract_metadata`: empty-string fields become `None`. -/
def cleanOpt : Option Str → Option Str
  | some [] => none
  | o => o

/-- Apply `cleanOpt` to every metadata field. -/
def cleanEmpty (md : Metadata) : Metadata :=
  ⟨cleanOpt md.artist, cleanOpt md.album_artist, cleanOpt md.album,
   cleanOpt md.title, cleanOpt md.track_number, cleanOpt md.year,
   cleanOpt md.genre⟩

/-- Outcome of `MutagenFile(path)` for one source file (oracle for the
external mutagen library):
* `unrecognized` — it returned `None` (unknown format),
* `tags md` — it returned an object whose format-specific branch of
  `extract_metadata` produced the fields `md` (before the empty-string
  cleanup),
* `err md` — an exception was raised inside the `try` block, leaving the
  metadata dict at `md`. -/
inductive AudioResult
  | unrecognized
  | tags (md : Metadata)
  | err (md : Metadata)
deriving DecidableEq, Repr

/-- One source file: its original filename, its content, the mutagen outcome
and whether `shutil.copy2` would raise on it (I/O oracle). -/
structure Source where
  name : Str
  content : Content
  audio : AudioResult
  copyFails : Bool
deriving DecidableEq, Repr

/-- The running counters of `self.stats` (timestamps omitted). -/
structure Stats where
  total_entries : Nat
  valid_files : Nat
  missing_files : Nat
  metadata_read_success : Nat
  metadata_read_failed : Nat
  copied_success : Nat
  copied_skipped : Nat
  copied_failed : Nat
  total_size : Nat
deriving DecidableEq, Repr

/-- Counters as initialised in `__init__`. -/
def initStats : Stats := ⟨0, 0, 0, 0, 0, 0, 0, 0, 0⟩

/-- The metadata value produced by `extract_metadata`. -/
def mdOf : AudioResult → Metadata
  | AudioResult.unrecognized => emptyMetadata
  | AudioResult.tags md => cleanEmpty md
  | AudioResult.err md => md

/-- The counter update of `extract_metadata`: the unrecognized-format early
return bumps neither counter; a completed extraction bumps
`metadata_read_success`; an exception bumps `metadata_read_failed`. -/
def bumpMeta (st : Stats) : AudioResult → Stats
  | AudioResult.unrecognized => st
  | AudioResult.tags _ => { st with metadata_read_success := st.metadata_read_success + 1 }
  | AudioResult.err _ => { st with metadata_read_failed := st.metadata_read_failed + 1 }

/-- `M3U8Importer.extract_metadata`: returns the metadata dict and updates
the two metadata counters. -/
def extract_metadata (st : Stats) (a : AudioResult) : Metadata × Stats :=
  (mdOf a, bumpMeta st a)

/-- `_files_identical source target` with `source` given by its content:
a missing target makes `stat` raise, which the `except` turns into `False`;
otherwise sizes are compared first, then MD5 digests. -/
def filesIdentical (fs : FS) (c : Content) (p : TPath) : Bool :=
  match FS.find fs p with
  | none => false
  | some c2 => c.size == c2.size && c.hash == c2.hash

/-- Python truthiness of an optional string (`None` and `""` are falsy). -/
def truthyS : Option Str → Bool
  | some (_ :: _) => true
  | _ => false

/-- Python `a or b` on an optional string with a fallback. -/
def pyOrD (o : Option Str) (d : Str) : Str :=
  match o with
  | some s => if s.isEmpty then d else s
  | none => d

/-- `metadata.get("album_artist") or metadata.get("artist") or "Unknown Artist"`. -/
def artistOf (md : Metadata) : Str :=
  pyOrD md.album_artist (pyOrD md.artist ("Unknown Artist".toList))

/-- `metadata.get("album") or "Unknown Album"`. -/
def albumOf (md : Metadata) : Str :=
  pyOrD md.album ("Unknown Album".toList)

/-- Decimal digit-string value, for `pyInt`. -/
def digitsVal (ds : Str) : Option Nat :=
  if ds.isEmpty then none
  else if ds.all Char.isDigit then
    some (ds.foldl (fun a c => a * 10 + (c.toNat - Char.toNat '0')) 0)
  else none

/-- `int(s)` for a string: strip whitespace, optional sign, decimal digits;
`none` models the `ValueError` caught by the bare `except`. -/
def pyInt (s : Str) : Option Int :=
  match stripBoth isWsChar s with
  | '+' :: ds => (digitsVal ds).map Int.ofNat
  | '-' :: ds => (digitsVal ds).map (fun n => -(n : Int))
  | ds => (digitsVal ds).map Int.ofNat

/-- `f-string` formatting `{i:02d}`: pad to width 2 with zeros after the sign. -/
def py02d (i : Int) : Str :=
  if i < 0 then '-' :: Nat.toDigits 10 i.natAbs
  else if i < 10 then '0' :: Nat.toDigits 10 i.toNat
  else Nat.toDigits 10 i.toNat

/-- Index of the last dot of a filename, if any (CPython `rfind`). -/
def dotIdx (name : Str) : Option Nat :=
  match name.reverse.findIdx? (fun c => c == '.') with
  | none => none
  | some j => some (name.length - 1 - j)

/-- `PurePath.suffix`: the part from the last dot on, provided that dot is
neither the first nor the last character; empty otherwise. -/
def pySuffix (name : Str) : Str :=
  match dotIdx name with
  | some i => if 0 < i ∧ i < name.length - 1 then name.drop i else []
  | none => []

/-- `PurePath.stem`: the filename without `pySuffix`. -/
def pyStem (name : Str) : Str :=
  match dotIdx name with
  | some i => if 0 < i ∧ i < name.length - 1 then name.take i else name
  | none => name

/-- The raw filename built in the title branch of `generate_target_path`,
before sanitisation: track prefix `NN - ` when `track_number` is truthy and
parses as an int (text before the first `/`), else title plus source suffix. -/
def rawTitleFilename (src : Source) (md : Metadata) : Str :=
  let t := md.title.getD []
  if truthyS md.track_number then
    match pyInt ((md.track_number.getD []).takeWhile (fun c => !(c == '/'))) with
    | some k => py02d k ++ (' ' :: '-' :: ' ' :: []) ++ t ++ pySuffix src.name
    | none => t ++ pySuffix src.name
  else t ++ pySuffix src.name

/-- The candidate filename of `generate_target_path`: the sanitised title
construction when a title is present (truthy), otherwise the source's
original name, unsanitised. -/
def buildFilename (src : Source) (md : Metadata) : Str :=
  if truthyS md.title then sanitize_filename (rawTitleFilename src md)
  else src.name

/-- The unsuffixed candidate target path `target_dir / filename`. -/
def candidatePath (src : Source) (md : Metadata) : TPath :=
  ⟨sanitize_filename (artistOf md), sanitize_filename (albumOf md),
   buildFilename src md⟩

/-- Result of `generate_target_path`: a path, or the
`raise Exception("文件名冲突次数过多...")` collision-exhaustion failure. -/
inductive GenResult
  | ok (p : TPath)
  | collisionExhausted
deriving DecidableEq, Repr

/-- The candidate with collision suffix ` (n)` inserted before the extension:
`f"{stem} ({counter}){suffix}"` over the original candidate filename. -/
def suffixedPath (tp : TPath) (n : Nat) : TPath :=
  ⟨tp.artist, tp.album,
   pyStem tp.fname ++ (' ' :: '(' :: (Nat.toDigits 10 n ++ [')'])) ++ pySuffix tp.fname⟩

/-- The `while target_path.exists()` loop of `generate_target_path`, entered
with `counter = c` once the unsuffixed candidate was found existing and
non-identical.  Each round builds the candidate for the current counter,
increments, raises once the counter passes 100, and otherwise re-checks
existence only.  `fuel` is an upper bound on the remaining rounds; with the
initial call `c = 1`, `fuel = 100` the counter check always fires before the
fuel runs out, so the `fuel = 0` branch is unreachable and the function equals
the unbounded loop. -/
def collideFrom (fs : FS) (tp : TPath) : Nat → Nat → GenResult
  | _, 0 => GenResult.collisionExhausted
  | c, fuel + 1 =>
    if c + 1 > 100 then GenResult.collisionExhausted
    else if (FS.find fs (suffixedPath tp c)).isSome then collideFrom fs tp (c + 1) fuel
    else GenResult.ok (suffixedPath tp c)

/-- `M3U8Importer.generate_target_path`: build the candidate path from the
metadata; if it exists with different content, run the suffix loop, otherwise
return the candidate (which is either fresh, or existing with identical
content). -/
def generate_target_path (fs : FS) (src : Source) (md : Metadata) : GenResult :=
  let tp := candidatePath src md
  if (FS.find fs tp).isSome && !(filesIdentical fs src.content tp) then
    collideFrom fs tp 1 100
  else GenResult.ok tp

/-- Per-item outcome status of an `ImportRecord`. -/
inductive Status
  | success
  | skipped
  | failed
deriving DecidableEq, Repr

/-- One entry of `self.results` (an ImportRecord). -/
structure Record where
  source_path : Str
  target_path : Option TPath
  filename : Str
  size_bytes : Nat
  status : Status
  md5 : Option Nat
  metadata : Option Metadata
deriving DecidableEq, Repr

/-- `target_path.stat().st_size` (only evaluated on existing targets). -/
def contentSizeAt (fs : FS) (p : TPath) : Nat :=
  match FS.find fs p with
  | some c => c.size
  | none => 0

/-- `_calculate_md5 target_path` (only evaluated on existing targets). -/
def contentHashAt (fs : FS) (p : TPath) : Option Nat :=
  (FS.find fs p).map Content.hash

/-- The record appended in the `except` branch of the `copy_files` loop. -/
def failedRecord (src : Source) : Record :=
  ⟨src.name, none, src.name, 0, Status.failed, none, none⟩

/-- One iteration of the `copy_files` loop: extract metadata, plan the target
path, then skip (existing identical target), copy, or fail (collision
exhaustion, or `shutil.copy2` raising).  A failed copy leaves the tree
unchanged. -/
def processOne (fs : FS) (st : Stats) (src : Source) : FS × Stats × Record :=
  let md := mdOf src.audio
  let st := bumpMeta st src.audio
  match generate_target_path fs src md with
  | GenResult.collisionExhausted =>
      (fs, { st with copied_failed := st.copied_failed + 1 }, failedRecord src)
  | GenResult.ok tp =>
      if filesIdentical fs src.content tp then
        (fs, { st with copied_skipped := st.copied_skipped + 1 },
         ⟨src.name, some tp, tp.fname, contentSizeAt fs tp, Status.skipped,
          contentHashAt fs tp, some md⟩)
      else if src.copyFails then
        (fs, { st with copied_failed := st.copied_failed + 1 }, failedRecord src)
      else
        let fs2 := FS.write fs tp src.content
        let sz := contentSizeAt fs2 tp
        (fs2, { st with copied_success := st.copied_success + 1,
                        total_size := st.total_size + sz },
         ⟨src.name, some tp, tp.fname, sz, Status.success,
          contentHashAt fs2 tp, some md⟩)

/-- `M3U8Importer.copy_files`: process the resolved sources in playlist
order, emitting one record per item. -/
def copy_files (fs : FS) (st : Stats) : List Source → FS × Stats × List Record
  | [] => (fs, st, [])
  | s :: rest =>
    let pr := processOne fs st s
    let cr := copy_files pr.1 pr.2.1 rest
    (cr.1, cr.2.1, pr.2.2 :: cr.2.2)

/-- Outcome of `_resolve_path` for one counted playlist line (oracle for the
filesystem outside the destination tree and for URL decoding):
`found` an existing regular file, `notFound` (missing or not a regular file,
counted as missing), or `resolveError` (an exception inside `_resolve_path`,
caught and turned into `None` without touching the missing counter). -/
inductive ResolveOutcome
  | found (src : Source)
  | notFound
  | resolveError
deriving DecidableEq, Repr

/-- One raw playlist line together with its resolution oracle. -/
structure LineItem where
  text : Str
  resolve : ResolveOutcome
deriving DecidableEq, Repr

/-- `line = line.strip(); if not line or line.startswith('#'): continue` —
`true` when the line is counted as an entry. -/
def lineKept (t : Str) : Bool :=
  match stripBoth isWsChar t with
  | [] => false
  | c :: _ => !(c == '#')

/-- `true` exactly for the `notFound` outcome. -/
def isNotFound : ResolveOutcome → Bool
  | ResolveOutcome.notFound => true
  | _ => false

/-- `true` exactly for the `found` outcome. -/
def isFound : ResolveOutcome → Bool
  | ResolveOutcome.found _ => true
  | _ => false

/-- The source a line contributes to the valid-file list, if any. -/
def foundOf (li : LineItem) : Option Source :=
  if lineKept li.text then
    match li.resolve with
    | ResolveOutcome.found s => some s
    | _ => none
  else none

/-- The line loop of `parse_m3u8`: skip blank/comment lines without counting;
count every other line; on resolution append the file and bump `valid_files`;
on a missing file bump `missing_files`; on a resolver exception just log. -/
def parseLines : List LineItem → Stats → Stats × List Source
  | [], st => (st, [])
  | li :: rest, st =>
    if lineKept li.text then
      let st1 := { st with total_entries := st.total_entries + 1 }
      match li.resolve with
      | ResolveOutcome.found src =>
          let pr := parseLines rest { st1 with valid_files := st1.valid_files + 1 }
          (pr.1, src :: pr.2)
      | ResolveOutcome.notFound =>
          parseLines rest { st1 with missing_files := st1.missing_files + 1 }
      | ResolveOutcome.resolveError => parseLines rest st1
    else parseLines rest st

/-- The playlist input: either unreadable (missing file or read failure, both
returning an empty list), or a sequence of lines. -/
inductive Playlist
  | unreadable
  | readable (ls : List LineItem)
deriving DecidableEq, Repr

/-- `M3U8Importer.parse_m3u8`. -/
def parse_m3u8 : Playlist → Stats → Stats × List Source
  | Playlist.unreadable, st => (st, [])
  | Playlist.readable ls, st => parseLines ls st

/-- The observable outcome of `M3U8Importer.run`: the boolean return value,
the final counters, the emitted records, and the final destination tree. -/
structure RunResult where
  ok : Bool
  stats : Stats
  records : List Record
  fs : FS
deriving DecidableEq, Repr

/-- `M3U8Importer.run`: parse the playlist; with no valid files return
`False`; otherwise copy everything and return `True`. -/
def run (pl : Playlist) (fs0 : FS) : RunResult :=
  let pr := parse_m3u8 pl initStats
  if pr.2.isEmpty then ⟨false, pr.1, [], fs0⟩
  else
    let cr := copy_files fs0 pr.1 pr.2
    ⟨true, cr.2.1, cr.2.2, cr.1⟩

/-- `main`: `sys.exit(0 if success else 1)`. -/
def mainExitCode (pl : Playlist) (fs0 : FS) : Nat :=
  if (run pl fs0).ok then 0 else 1

/-! ### Concrete example inputs used by counterexamples and witnesses -/

/-- Metadata tags `{artist: "A", album: "B", title: "C"}` as extracted. -/
def mdABC : Metadata :=
  ⟨some ("A".toList), none, some ("B".toList), some ("C".toList), none, none, none⟩

/-- Source file `x.mp3`, content (5, 1), tagged `mdABC`. -/
def srcX : Source := ⟨"x.mp3".toList, ⟨5, 1⟩, AudioResult.tags mdABC, false⟩

/-- Source file `y.mp3`, content (5, 2) (same size, different bytes), tagged `mdABC`. -/
def srcY : Source := ⟨"y.mp3".toList, ⟨5, 2⟩, AudioResult.tags mdABC, false⟩

/-- Playlist listing `x.mp3` then `y.mp3`. -/
def plXY : Playlist :=
  Playlist.readable [⟨"x.mp3".toList, ResolveOutcome.found srcX⟩,
                     ⟨"y.mp3".toList, ResolveOutcome.found srcY⟩]

/-- Playlist listing `x.mp3` twice. -/
def plXX : Playlist :=
  Playlist.readable [⟨"x.mp3".toList, ResolveOutcome.found srcX⟩,
                     ⟨"x.mp3".toList, ResolveOutcome.found srcX⟩]

/-- Modelled from the spec's words (claim C1's translation, kept for the
refinement comparison only — `generate_target_path` above is the embedding of
the source): the collision loop as the claim states it, re-checking existence
AND content-identity at each suffix step, returning an identical match as the
skip signal, and failing only when `n` exceeds 100. -/
def specCollideFrom (fs : FS) (c0 : Content) (tp : TPath) : Nat → Nat → GenResult
  | _, 0 => GenResult.collisionExhausted
  | c, fuel + 1 =>
    if c > 100 then GenResult.collisionExhausted
    else
      match FS.find fs (suffixedPath tp c) with
      | none => GenResult.ok (suffixedPath tp c)
      | some _ =>
        if filesIdentical fs c0 (suffixedPath tp c) then GenResult.ok (suffixedPath tp c)
        else specCollideFrom fs c0 tp (c + 1) fuel

/-- Modelled from the spec's words (claim C1, see `specCollideFrom`):
path planning as the claim describes it. -/
def generate_target_path_claim (fs : FS) (src : Source) (md : Metadata) : GenResult :=
  let tp := candidatePath src md
  match FS.find fs tp with
  | none => GenResult.ok tp
  | some _ =>
    if filesIdentical fs src.content tp then GenResult.ok tp
    else specCollideFrom fs src.content tp 1 101

/-- The hypothesis of the amended idempotence claim, decidably: a playlist
line is good for a destination tree when its resolved file (if any) already
sits content-identically at its unsuffixed candidate path. -/
def goodLine (fs : FS) (li : LineItem) : Bool :=
  match li.resolve with
  | ResolveOutcome.found src =>
      filesIdentical fs src.content (candidatePath src (mdOf src.audio))
  | _ => true

/-- The candidate destination path of `srcX` (and `srcY`): `A/B/C.mp3`. -/
def tpABC : TPath := ⟨"A".toList, "B".toList, "C.mp3".toList⟩

/-- Destination tree for the C1 counterexample: the candidate holds different
content (5, 9), while suffix 1 already holds content identical to `srcX`. -/
def fsC1 : FS := [(tpABC, ⟨5, 9⟩), (suffixedPath tpABC 1, ⟨5, 1⟩)]

/-- One-line playlist listing only `x.mp3`. -/
def lsX : List LineItem := [⟨"x.mp3".toList, ResolveOutcome.found srcX⟩]

/-- The destination tree left by a first run of the one-line playlist. -/
def fsAfterX : FS := (run (Playlist.readable lsX) []).fs

/-- The success record of the first item of `plXX` over an empty tree. -/
def recXsuccess : Record :=
  ⟨"x.mp3".toList, some tpABC, "C.mp3".toList, 5, Status.success, some 1, some mdABC⟩

/-- The skipped record of the second item of `plXX` over an empty tree. -/
def recXskipped : Record :=
  ⟨"x.mp3".toList, some tpABC, "C.mp3".toList, 5, Status.skipped, some 1, some mdABC⟩

/-- Playlist with one valid file and one missing file (for the C5
counterexample: same record sequence as `lsX` alone, different counters). -/
def plXmissing : Playlist :=
  Playlist.readable (lsX ++ [⟨"m.mp3".toList, ResolveOutcome.notFound⟩])

/-- A source file whose format mutagen does not recognize. -/
def srcU : Source := ⟨"u.mp3".toList, ⟨3, 7⟩, AudioResult.unrecognized, false⟩

/-- Playlist listing only the unrecognized-format file. -/
def plU : Playlist :=
  Playlist.readable [⟨"u.mp3".toList, ResolveOutcome.found srcU⟩]

/-- A title-less source whose original name contains an illegal character. -/
def srcColon : Source := ⟨"a:b.mp3".toList, ⟨2, 9⟩, AudioResult.unrecognized, false⟩

/-! ### Theorems -/

/-- The suffix loop, entered at counter `c` with `c + fuel = 101`, returns the
first existence-free candidate among counters `c, …, 99` and otherwise
exhausts: content identity plays no role inside the loop, and the counter
check aborts before candidate 100 is ever tested for existence. -/
theorem collideFrom_eq (fs : FS) (tp : TPath) :
    ∀ fuel c, c + fuel = 101 →
      collideFrom fs tp c fuel =
        match (List.range' c (100 - c)).find?
            (fun n => (FS.find fs (suffixedPath tp n)).isNone) with
        | some m => GenResult.ok (suffixedPath tp m)
        | none => GenResult.collisionExhausted := by
  intro fuel
  induction fuel with
  | zero =>
    intro c hc
    have h : c = 101 := by omega
    subst h
    simp [collideFrom]
  | succ fuel ih =>
    intro c hc
    by_cases h100 : c + 1 > 100
    · have h : c = 100 := by omega
      subst h
      simp [collideFrom]
    · have hsplit : List.range' c (100 - c) = c :: List.range' (c + 1) (100 - (c + 1)) := by
        have h1 : 100 - c = (100 - (c + 1)) + 1 := by omega
        rw [h1, List.range'_succ]
      cases hfind : FS.find fs (suffixedPath tp c) with
      | some v =>
        have hstep : collideFrom fs tp c (fuel + 1) = collideFrom fs tp (c + 1) fuel := by
          simp [collideFrom, h100, hfind]
        rw [hstep, ih (c + 1) (by omega), hsplit]
        simp [List.find?_cons, hfind]
      | none =>
        rw [hsplit]
        simp [collideFrom, h100, hfind, List.find?_cons]

/-- Claim C1 (amended): when the candidate destination path exists with
identical content, that exact path is returned; when it exists with different
content, suffixes ` (n)` are tried for `n = 1, 2, …` with only EXISTENCE
re-checked at each step (content identity is never re-checked inside the
loop), the first free slot among `n = 1 … 99` is returned, and the dedicated
collision failure is raised as soon as the counter passes 100 — that is, when
suffixes 1 through 99 all exist, without the `n = 100` candidate ever being
existence-checked. -/
theorem claim1_collision_policy (fs : FS) (src : Source) (md : Metadata) :
    generate_target_path fs src md =
      (if FS.find fs (candidatePath src md) = none then
        GenResult.ok (candidatePath src md)
      else if filesIdentical fs src.content (candidatePath src md) then
        GenResult.ok (candidatePath src md)
      else
        match (List.range' 1 99).find?
            (fun n => (FS.find fs (suffixedPath (candidatePath src md) n)).isNone) with
        | some m => GenResult.ok (suffixedPath (candidatePath src md) m)
        | none => GenResult.collisionExhausted) := by
  unfold generate_target_path
  cases h0 : FS.find fs (candidatePath src md) with
  | none => simp [h0]
  | some v =>
    by_cases hid : filesIdentical fs src.content (candidatePath src md) = true
    · simp [h0, hid]
    · have hb : filesIdentical fs src.content (candidatePath src md) = false := by
        exact Bool.eq_false_iff.mpr hid
      have := collideFrom_eq fs (candidatePath src md) 100 1 (by norm_num)
      simp only [h0, hb, Option.isSome_some, Bool.not_false, Bool.and_self, if_true,
        reduceIte]
      rw [this]
      norm_num
      simp

/-- Claim C1 counterexample: destination tree where the candidate `A/B/C.mp3`
holds different content and suffix 1 (`A/B/C (1).mp3`) holds content identical
to the source.  The claim's stated policy (identity re-checked at each step)
returns the identical suffix-1 path; the code skips past it on mere existence
and returns the fresh suffix-2 path. -/
theorem claim1_counterexample :
    generate_target_path fsC1 srcX mdABC = GenResult.ok (suffixedPath tpABC 2) ∧
    generate_target_path_claim fsC1 srcX mdABC = GenResult.ok (suffixedPath tpABC 1) ∧
    suffixedPath tpABC 2 ≠ suffixedPath tpABC 1 := by
  refine ⟨?_, ?_, ?_⟩ <;> decide

/-- The head of a `dropWhile` result never satisfies the predicate. -/
theorem dropWhile_head_false {p : Char → Bool} :
    ∀ {l : Str} {a : Char} {t : Str}, l.dropWhile p = a :: t → p a = false := by
  intro l
  induction l with
  | nil => intro a t h; simp [List.dropWhile] at h
  | cons c rest ih =>
    intro a t h
    rw [List.dropWhile_cons] at h
    by_cases hc : p c = true
    · rw [if_pos hc] at h; exact ih h
    · rw [if_neg hc] at h
      cases h
      simpa using hc

/-- `dropWhile` is idempotent. -/
theorem dropWhile_idem (p : Char → Bool) (l : Str) :
    (l.dropWhile p).dropWhile p = l.dropWhile p := by
  cases h : l.dropWhile p with
  | nil => rfl
  | cons a t =>
    have hp := dropWhile_head_false h
    rw [List.dropWhile_cons, hp]
    simp

/-- `stripBoth p l` is a prefix of `l.dropWhile p`. -/
theorem stripBoth_decomp (p : Char → Bool) (l : Str) :
    ∃ s, l.dropWhile p = stripBoth p l ++ s := by
  refine ⟨((l.dropWhile p).reverse.takeWhile p).reverse, ?_⟩
  unfold stripBoth dropTrailing
  conv_lhs => rw [← List.reverse_reverse (l.dropWhile p),
    ← List.takeWhile_append_dropWhile (p := p) (l := (l.dropWhile p).reverse)]
  rw [List.reverse_append]

/-- The head of a `stripBoth` result never satisfies the predicate. -/
theorem stripBoth_head_false (p : Char → Bool) {l : Str} {a : Char} {t : Str}
    (h : stripBoth p l = a :: t) : p a = false := by
  obtain ⟨s, hs⟩ := stripBoth_decomp p l
  rw [h, List.cons_append] at hs
  exact dropWhile_head_false hs

/-- `stripBoth` is idempotent. -/
theorem stripBoth_idem (p : Char → Bool) (l : Str) :
    stripBoth p (stripBoth p l) = stripBoth p l := by
  have h1 : (stripBoth p l).dropWhile p = stripBoth p l := by
    cases h : stripBoth p l with
    | nil => rfl
    | cons a t =>
      have hpa := stripBoth_head_false p h
      rw [List.dropWhile_cons, hpa]
      simp
  have hrev : (stripBoth p l).reverse = List.dropWhile p ((l.dropWhile p).reverse) := by
    unfold stripBoth dropTrailing
    rw [List.reverse_reverse]
  show dropTrailing p ((stripBoth p l).dropWhile p) = stripBoth p l
  rw [h1]
  unfold dropTrailing
  rw [hrev, dropWhile_idem, ← hrev, List.reverse_reverse]

/-- Members of `stripBoth p l` are members of `l`. -/
theorem mem_stripBoth {p : Char → Bool} {l : Str} {c : Char}
    (h : c ∈ stripBoth p l) : c ∈ l := by
  obtain ⟨s, hs⟩ := stripBoth_decomp p l
  have h1 : c ∈ l.dropWhile p := by
    rw [hs]
    exact List.mem_append_left _ h
  have h2 := List.takeWhile_append_dropWhile (p := p) (l := l)
  rw [← h2]
  exact List.mem_append_right _ h1

/-- Every output of `replChar` is either the input or one of the eight fixed
replacement characters (the double quote is left unchanged, see `replChar`). -/
theorem replChar_cases (c : Char) :
    replChar c = c ∨ replChar c = '∕' ∨ replChar c = '∶' ∨ replChar c = '⧵' ∨
    replChar c = '？' ∨ replChar c = '＊' ∨ replChar c = '＜' ∨
    replChar c = '＞' ∨ replChar c = '｜' := by
  unfold replChar
  split_ifs <;> simp

/-- `replChar` is idempotent: no replacement character is itself illegal. -/
theorem replChar_idem (c : Char) : replChar (replChar c) = replChar c := by
  rcases replChar_cases c with h | h | h | h | h | h | h | h | h <;>
    rw [h] <;> first | exact h | decide

/-- A map whose function fixes every member is the identity. -/
theorem map_fixed {f : Char → Char} :
    ∀ l : Str, (∀ c ∈ l, f c = c) → l.map f = l := by
  intro l h
  induction l with
  | nil => rfl
  | cons a t ih =>
    simp only [List.map_cons, h a (List.mem_cons_self a t),
      ih (fun c hc => h c (List.mem_cons_of_mem a hc))]

/-- Sanitising the fallback value gives it back. -/
theorem sanitize_unknown :
    sanitize_filename ("Unknown".toList) = "Unknown".toList := by decide

/-- The two shapes a `sanitize_filename` result can take. -/
theorem sanitize_filename_cases (x : Str) :
    sanitize_filename x = "Unknown".toList ∨
    (sanitize_filename x = stripBoth isStripChar (x.map replChar) ∧
     sanitize_filename x ≠ []) := by
  unfold sanitize_filename
  by_cases hx : x.isEmpty
  · left; rw [if_pos hx]
  · rw [if_neg hx]
    by_cases h2 : (stripBoth isStripChar (x.map replChar)).isEmpty
    · left
      simp only [h2, if_true]
    · right
      simp only [h2, if_false]
      refine ⟨rfl, ?_⟩
      cases h : stripBoth isStripChar (x.map replChar) with
      | nil => rw [h] at h2; simp at h2
      | cons a t => simp

/-- Claim C6 (amended): `sanitize_filename` is pure (a function of its
argument alone), idempotent — `sanitize(sanitize(x)) = sanitize(x)` — and
never returns the empty string; per its definition above it maps each of
`/ : \ ? * < > |` to its fixed lookalike, leaves the double quote unchanged
(the table's `'"'` entry replaces the quote with itself), strips
leading/trailing spaces and dots, and falls back to `Unknown` when the
outcome is empty. -/
theorem claim6_sanitize_pure_idempotent (x : Str) :
    sanitize_filename (sanitize_filename x) = sanitize_filename x ∧
    sanitize_filename x ≠ [] := by
  rcases sanitize_filename_cases x with h | ⟨h, hne⟩
  · constructor
    · rw [h]; exact sanitize_unknown
    · rw [h]; decide
  · refine ⟨?_, hne⟩
    rw [h] at hne ⊢
    have hfix : ∀ c ∈ stripBoth isStripChar (x.map replChar), replChar c = c := by
      intro c hc
      have hc2 : c ∈ x.map replChar := mem_stripBoth hc
      obtain ⟨c0, _, rfl⟩ := List.mem_map.mp hc2
      exact replChar_idem c0
    have hmap := map_fixed _ hfix
    have hstrip := stripBoth_idem isStripChar (x.map replChar)
    have hsne : (stripBoth isStripChar (x.map replChar)).isEmpty = false := by
      cases h3 : stripBoth isStripChar (x.map replChar) with
      | nil => exact absurd h3 hne
      | cons a t => rfl
    unfold sanitize_filename
    simp only [hsne, hmap, hstrip, Bool.false_eq_true, if_false]

/-- Claim C6 counterexample: the claimed replacement table is wrong for the
double quote.  The source's `illegal_chars` entry for `"` carries the ASCII
quote (byte 0x22) on both sides, so `replace` substitutes the quote with
itself, and sanitising a name containing `"` returns it verbatim — the
quote is never replaced by a lookalike substitute. -/
theorem claim6_counterexample :
    replChar ('\x22') = '\x22' ∧
    sanitize_filename ('a' :: '\x22' :: 'b' :: []) = 'a' :: '\x22' :: 'b' :: [] := by
  refine ⟨?_, ?_⟩ <;> decide

/-- Full characterisation of the `parse_m3u8` line loop: only kept
(non-blank, non-comment) lines are counted; kept-and-found lines are counted
valid and contribute their file, in order; kept-but-missing lines are counted
missing; resolver errors count as entries only; all other counters are
untouched. -/
theorem parseLines_eq (ls : List LineItem) : ∀ st : Stats,
    parseLines ls st =
      ({ st with
          total_entries := st.total_entries + ls.countP (fun li => lineKept li.text),
          valid_files := st.valid_files +
            ls.countP (fun li => lineKept li.text && isFound li.resolve),
          missing_files := st.missing_files +
            ls.countP (fun li => lineKept li.text && isNotFound li.resolve) },
       ls.filterMap foundOf) := by
  induction ls with
  | nil => intro st; simp [parseLines]
  | cons li rest ih =>
    intro st
    by_cases hk : lineKept li.text = true
    · cases hr : li.resolve with
      | found src =>
        simp only [parseLines, hk, if_true, hr, ih, List.countP_cons, List.filterMap_cons,
          foundOf, isFound, isNotFound]
        simp [hk, hr, foundOf, Prod.ext_iff, Stats.mk.injEq]
        omega
      | notFound =>
        simp only [parseLines, hk, if_true, hr, ih, List.countP_cons, List.filterMap_cons,
          foundOf, isFound, isNotFound]
        simp [hk, hr, foundOf, Prod.ext_iff, Stats.mk.injEq]
        omega
      | resolveError =>
        simp only [parseLines, hk, if_true, hr, ih, List.countP_cons, List.filterMap_cons,
          foundOf, isFound, isNotFound]
        simp [hk, hr, foundOf, Prod.ext_iff, Stats.mk.injEq]
        omega
    · have hk2 : lineKept li.text = false := Bool.eq_false_iff.mpr hk
      simp only [parseLines, hk2, Bool.false_eq_true, if_false, ih, List.countP_cons,
        List.filterMap_cons]
      simp [hk2, foundOf, Prod.ext_iff, Stats.mk.injEq]

@[simp] theorem bumpMeta_total_entries (st : Stats) (a : AudioResult) :
    (bumpMeta st a).total_entries = st.total_entries := by cases a <;> rfl

@[simp] theorem bumpMeta_valid_files (st : Stats) (a : AudioResult) :
    (bumpMeta st a).valid_files = st.valid_files := by cases a <;> rfl

@[simp] theorem bumpMeta_missing_files (st : Stats) (a : AudioResult) :
    (bumpMeta st a).missing_files = st.missing_files := by cases a <;> rfl

@[simp] theorem bumpMeta_copied_success (st : Stats) (a : AudioResult) :
    (bumpMeta st a).copied_success = st.copied_success := by cases a <;> rfl

@[simp] theorem bumpMeta_copied_skipped (st : Stats) (a : AudioResult) :
    (bumpMeta st a).copied_skipped = st.copied_skipped := by cases a <;> rfl

@[simp] theorem bumpMeta_copied_failed (st : Stats) (a : AudioResult) :
    (bumpMeta st a).copied_failed = st.copied_failed := by cases a <;> rfl

@[simp] theorem bumpMeta_total_size (st : Stats) (a : AudioResult) :
    (bumpMeta st a).total_size = st.total_size := by cases a <;> rfl

/-- Each `copy_files` iteration leaves the parse counters alone and bumps
exactly the copy counter matching the status of the record it emits; the
byte counter grows by the emitted record's size exactly on success. -/
theorem processOne_stats (fs : FS) (st : Stats) (src : Source) :
    (processOne fs st src).2.1.total_entries = st.total_entries ∧
    (processOne fs st src).2.1.valid_files = st.valid_files ∧
    (processOne fs st src).2.1.missing_files = st.missing_files ∧
    (processOne fs st src).2.1.copied_success =
      st.copied_success +
        (if (processOne fs st src).2.2.status = Status.success then 1 else 0) ∧
    (processOne fs st src).2.1.copied_skipped =
      st.copied_skipped +
        (if (processOne fs st src).2.2.status = Status.skipped then 1 else 0) ∧
    (processOne fs st src).2.1.copied_failed =
      st.copied_failed +
        (if (processOne fs st src).2.2.status = Status.failed then 1 else 0) ∧
    (processOne fs st src).2.1.total_size =
      st.total_size +
        (if (processOne fs st src).2.2.status = Status.success then
          (processOne fs st src).2.2.size_bytes else 0) := by
  cases hg : generate_target_path fs src (mdOf src.audio) with
  | collisionExhausted => simp [processOne, hg, failedRecord]
  | ok tp =>
    by_cases hid : filesIdentical fs src.content tp = true
    · simp [processOne, hg, hid]
    · have hid2 : filesIdentical fs src.content tp = false := Bool.eq_false_iff.mpr hid
      by_cases hcf : src.copyFails = true
      · simp [processOne, hg, hid2, hcf, failedRecord]
      · have hcf2 : src.copyFails = false := Bool.eq_false_iff.mpr hcf
        simp [processOne, hg, hid2, hcf2]

/-- The `copy_files` loop: parse counters untouched, one record per source,
copy counters grow by the per-status record counts, bytes grow by the total
size of the success records. -/
theorem copy_files_stats (srcs : List Source) : ∀ fs st,
    (copy_files fs st srcs).2.1.total_entries = st.total_entries ∧
    (copy_files fs st srcs).2.1.valid_files = st.valid_files ∧
    (copy_files fs st srcs).2.1.missing_files = st.missing_files ∧
    (copy_files fs st srcs).2.2.length = srcs.length ∧
    (copy_files fs st srcs).2.1.copied_success =
      st.copied_success +
        (copy_files fs st srcs).2.2.countP (fun r => r.status == Status.success) ∧
    (copy_files fs st srcs).2.1.copied_skipped =
      st.copied_skipped +
        (copy_files fs st srcs).2.2.countP (fun r => r.status == Status.skipped) ∧
    (copy_files fs st srcs).2.1.copied_failed =
      st.copied_failed +
        (copy_files fs st srcs).2.2.countP (fun r => r.status == Status.failed) ∧
    (copy_files fs st srcs).2.1.total_size =
      st.total_size +
        (((copy_files fs st srcs).2.2.filter
            (fun r => r.status == Status.success)).map Record.size_bytes).sum := by
  induction srcs with
  | nil => intro fs st; simp [copy_files]
  | cons s rest ih =>
    intro fs st
    obtain ⟨p1, p2, p3, p4, p5, p6, p7⟩ := processOne_stats fs st s
    obtain ⟨q1, q2, q3, q4, q5, q6, q7, q8⟩ := ih (processOne fs st s).1 (processOne fs st s).2.1
    simp only [copy_files]
    refine ⟨?_, ?_, ?_, ?_, ?_, ?_, ?_, ?_⟩
    · rw [q1, p1]
    · rw [q2, p2]
    · rw [q3, p3]
    · simp [q4]
    · rw [List.countP_cons, q5, p4]
      simp only [beq_iff_eq]
      omega
    · rw [List.countP_cons, q6, p5]
      simp only [beq_iff_eq]
      omega
    · rw [List.countP_cons, q7, p6]
      simp only [beq_iff_eq]
      omega
    · rw [List.filter_cons, q8, p7]
      by_cases hs : (processOne fs st s).2.2.status = Status.success
      · simp [hs]
        omega
      · simp [hs]

@[simp] theorem isFound_found (s : Source) :
    isFound (ResolveOutcome.found s) = true := rfl

@[simp] theorem isFound_notFound : isFound ResolveOutcome.notFound = false := rfl

@[simp] theorem isFound_resolveError : isFound ResolveOutcome.resolveError = false := rfl

@[simp] theorem isNotFound_found (s : Source) :
    isNotFound (ResolveOutcome.found s) = false := rfl

@[simp] theorem isNotFound_notFound : isNotFound ResolveOutcome.notFound = true := rfl

@[simp] theorem isNotFound_resolveError :
    isNotFound ResolveOutcome.resolveError = false := rfl

/-- The number of kept-and-found lines is the number of resolved files. -/
theorem countP_found_eq_length (ls : List LineItem) :
    ls.countP (fun li => lineKept li.text && isFound li.resolve) =
      (ls.filterMap foundOf).length := by
  induction ls with
  | nil => rfl
  | cons li rest ih =>
    by_cases hk : lineKept li.text = true
    · cases hr : li.resolve <;>
        simp [List.countP_cons, List.filterMap_cons, foundOf, hk, hr, ih]
    · have hk2 : lineKept li.text = false := Bool.eq_false_iff.mpr hk
      simp [List.countP_cons, List.filterMap_cons, foundOf, hk2, ih]

/-- Every record has exactly one of the three statuses. -/
theorem countP_status_partition (recs : List Record) :
    recs.countP (fun r => r.status == Status.success) +
      recs.countP (fun r => r.status == Status.skipped) +
      recs.countP (fun r => r.status == Status.failed) = recs.length := by
  induction recs with
  | nil => rfl
  | cons r rest ih =>
    rw [List.countP_cons, List.countP_cons, List.countP_cons, List.length_cons]
    cases hs : r.status <;> simp [hs] <;> omega

/-- Claim C8: during parsing, blank lines and lines whose stripped text starts
with `#` are skipped without being counted as entries; every counted line
whose resolution reports a missing or non-regular file yields `None`,
increments the missing-file counter, and parsing continues over the whole
list (the loop is total — no exception escapes), the valid files being
exactly the resolved ones in playlist order. -/
theorem claim8_parse_skip_and_missing (ls : List LineItem) :
    (parse_m3u8 (Playlist.readable ls) initStats).1.total_entries =
      ls.countP (fun li => lineKept li.text) ∧
    (parse_m3u8 (Playlist.readable ls) initStats).1.missing_files =
      ls.countP (fun li => lineKept li.text && isNotFound li.resolve) ∧
    (parse_m3u8 (Playlist.readable ls) initStats).1.valid_files =
      ls.countP (fun li => lineKept li.text && isFound li.resolve) ∧
    (parse_m3u8 (Playlist.readable ls) initStats).2 = ls.filterMap foundOf := by
  simp [parse_m3u8, parseLines_eq, initStats]


/-- Shared run-level bookkeeping: the final copy counters and byte counter of
a run are the per-status counts (and success-size sum) of its record
sequence, `valid_files` is the record count, and the boolean result is
success exactly when at least one valid file was found. -/
theorem run_stats_eq (pl : Playlist) (fs0 : FS) :
    (run pl fs0).stats.valid_files = (run pl fs0).records.length ∧
    (run pl fs0).stats.copied_success =
      (run pl fs0).records.countP (fun r => r.status == Status.success) ∧
    (run pl fs0).stats.copied_skipped =
      (run pl fs0).records.countP (fun r => r.status == Status.skipped) ∧
    (run pl fs0).stats.copied_failed =
      (run pl fs0).records.countP (fun r => r.status == Status.failed) ∧
    (run pl fs0).stats.total_size =
      (((run pl fs0).records.filter (fun r => r.status == Status.success)).map
        Record.size_bytes).sum ∧
    ((run pl fs0).ok = true ↔ 0 < (run pl fs0).stats.valid_files) := by
  cases pl with
  | unreadable => simp [run, parse_m3u8, initStats]
  | readable ls =>
    have hparse := parseLines_eq ls initStats
    simp only [run, parse_m3u8]
    set pr := parseLines ls initStats with hpr
    have hv1 : pr.1.valid_files =
        ls.countP (fun li => lineKept li.text && isFound li.resolve) := by
      rw [hparse]; simp [initStats]
    have hcs : pr.1.copied_success = 0 := by rw [hparse]; simp [initStats]
    have hcsk : pr.1.copied_skipped = 0 := by rw [hparse]; simp [initStats]
    have hcf : pr.1.copied_failed = 0 := by rw [hparse]; simp [initStats]
    have hts : pr.1.total_size = 0 := by rw [hparse]; simp [initStats]
    have hsrcs : pr.2 = ls.filterMap foundOf := by rw [hparse]
    have hlen : ls.countP (fun li => lineKept li.text && isFound li.resolve) =
        pr.2.length := by rw [hsrcs]; exact countP_found_eq_length ls
    by_cases he : pr.2.isEmpty = true
    · have h0 : pr.2 = [] := by simpa using he
      rw [h0] at hlen
      simp only [he, if_true]
      simp only [List.length_nil] at hlen
      refine ⟨?_, ?_, ?_, ?_, ?_, ?_⟩ <;> simp [hv1, hcs, hcsk, hcf, hts, hlen]
    · have he2 : pr.2.isEmpty = false := Bool.eq_false_iff.mpr he
      have hpos : 0 < pr.2.length := by
        cases h2 : pr.2 with
        | nil => rw [h2] at he2; simp at he2
        | cons a t => simp [h2]
      simp only [he2, Bool.false_eq_true, if_false]
      obtain ⟨c1, c2, c3, c4, c5, c6, c7, c8⟩ := copy_files_stats pr.2 fs0 pr.1
      refine ⟨?_, ?_, ?_, ?_, ?_, ?_⟩
      · rw [c2, hv1, hlen, c4]
      · rw [c5, hcs, Nat.zero_add]
      · rw [c6, hcsk, Nat.zero_add]
      · rw [c7, hcf, Nat.zero_add]
      · rw [c8, hts, Nat.zero_add]
      · rw [c2, hv1, hlen]
        simpa using hpos

/-- Claim C4: after every run, `valid_files` equals
`copied_success + copied_skipped + copied_failed`: each of the valid files
processed by `copy_files` bumps exactly one of the three copy-outcome
counters (a collision exhaustion or a failing copy is caught and counted as
failed; an existing identical target is counted as skipped; otherwise the
copy is counted as a success). -/
theorem claim4_counter_consistency (pl : Playlist) (fs0 : FS) :
    (run pl fs0).stats.valid_files =
      (run pl fs0).stats.copied_success + (run pl fs0).stats.copied_skipped +
        (run pl fs0).stats.copied_failed := by
  obtain ⟨h1, h2, h3, h4, _, _⟩ := run_stats_eq pl fs0
  have hpart := countP_status_partition (run pl fs0).records
  omega

/-- Claim C5 (amended): `valid_files`, the three copy counters and the byte
counter are pure functions of the emitted record sequence — the record count,
the per-status record counts, and the sum of the success records' sizes.
The remaining counters (`total_entries`, `missing_files` and the two
metadata-read counters) are NOT derivable from the records (see the
counterexample). -/
theorem claim5_stats_from_records (pl : Playlist) (fs0 : FS) :
    (run pl fs0).stats.valid_files = (run pl fs0).records.length ∧
    (run pl fs0).stats.copied_success =
      (run pl fs0).records.countP (fun r => r.status == Status.success) ∧
    (run pl fs0).stats.copied_skipped =
      (run pl fs0).records.countP (fun r => r.status == Status.skipped) ∧
    (run pl fs0).stats.copied_failed =
      (run pl fs0).records.countP (fun r => r.status == Status.failed) ∧
    (run pl fs0).stats.total_size =
      (((run pl fs0).records.filter (fun r => r.status == Status.success)).map
        Record.size_bytes).sum := by
  obtain ⟨h1, h2, h3, h4, h5, _⟩ := run_stats_eq pl fs0
  exact ⟨h1, h2, h3, h4, h5⟩

/-- Claim C5 counterexample: two runs — one over a playlist holding only
`x.mp3`, one over the same playlist with an extra missing entry — emit the
same record sequence but end with different counters (`total_entries` and
`missing_files` differ), so the full `RunStats` value is not a function of
the `ImportRecord` sequence. -/
theorem claim5_counterexample :
    (run (Playlist.readable lsX) []).records = (run plXmissing []).records ∧
    (run (Playlist.readable lsX) []).stats ≠ (run plXmissing []).stats := by
  refine ⟨?_, ?_⟩ <;> decide

/-- Claim C7: the exit status is 0 exactly when at least one valid file was
found (regardless of how many items then failed), and 1 exactly when the
playlist was unreadable or yielded zero valid files. -/
theorem claim7_exit_status (pl : Playlist) (fs0 : FS) :
    (mainExitCode pl fs0 = 0 ↔ 0 < (run pl fs0).stats.valid_files) ∧
    (mainExitCode pl fs0 = 1 ↔ (run pl fs0).stats.valid_files = 0) := by
  obtain ⟨_, _, _, _, _, hok⟩ := run_stats_eq pl fs0
  unfold mainExitCode
  by_cases h : (run pl fs0).ok = true
  · simp only [h, if_true]
    constructor
    · simpa using hok.mp h
    · have := hok.mp h
      constructor
      · intro h0; omega
      · intro h0; omega
  · have h2 : (run pl fs0).ok = false := Bool.eq_false_iff.mpr h
    have hnv : ¬ 0 < (run pl fs0).stats.valid_files := fun hp => h (hok.mpr hp)
    simp only [h2, Bool.false_eq_true, if_false]
    constructor
    · constructor
      · intro h0; omega
      · intro hp; exact absurd hp hnv
    · constructor
      · intro h0; omega
      · intro h0; trivial

/-- Claim C9: when mutagen yields no object (unrecognized format),
`extract_metadata` returns the all-`None` metadata record and leaves the
whole counter state — in particular both metadata-read counters — untouched;
consequently a run can end with the two metadata counters summing to less
than `valid_files`, as the concrete run over `plU` shows. -/
theorem claim9_unrecognized_format :
    (∀ st : Stats, extract_metadata st AudioResult.unrecognized = (emptyMetadata, st)) ∧
    (run plU []).stats.metadata_read_success + (run plU []).stats.metadata_read_failed <
      (run plU []).stats.valid_files := by
  exact ⟨fun st => rfl, by decide⟩

/-- Claim C2 counterexample: run the two-file playlist `plXY` (same tags,
different contents, so the second file got suffix 1 in the first run) twice.
In the second run the planner walks past the existing identical `C (1).mp3`
(the loop checks existence only), lands on the fresh `C (2).mp3`, and
re-copies the file: the run is NOT skip-only and adds bytes. -/
theorem claim2_counterexample :
    ((run plXY (run plXY []).fs).records.all
        (fun r => r.status == Status.skipped)) = false ∧
    (run plXY (run plXY []).fs).stats.total_size ≠ 0 := by
  refine ⟨?_, ?_⟩ <;> decide

/-- When every source already sits content-identically at its unsuffixed
candidate path, the copy loop touches nothing: the tree is unchanged, no
bytes are added, and every record is a skip. -/
theorem copy_files_all_identical (srcs : List Source) : ∀ fs st,
    (∀ s ∈ srcs, filesIdentical fs s.content (candidatePath s (mdOf s.audio)) = true) →
    (copy_files fs st srcs).1 = fs ∧
    (copy_files fs st srcs).2.1.total_size = st.total_size ∧
    ∀ r ∈ (copy_files fs st srcs).2.2, r.status = Status.skipped := by
  induction srcs with
  | nil =>
    intro fs st _
    refine ⟨rfl, rfl, ?_⟩
    intro r hr
    simp [copy_files] at hr
  | cons s rest ih =>
    intro fs st h
    have hs := h s (List.mem_cons_self s rest)
    have hgen : generate_target_path fs s (mdOf s.audio) =
        GenResult.ok (candidatePath s (mdOf s.audio)) := by
      unfold generate_target_path
      simp [hs]
    have h1 : (processOne fs st s).1 = fs := by simp [processOne, hgen, hs]
    have h2 : (processOne fs st s).2.2.status = Status.skipped := by
      simp [processOne, hgen, hs]
    have h3 : (processOne fs st s).2.1.total_size = st.total_size := by
      simp [processOne, hgen, hs]
    have hrest : ∀ s2 ∈ rest,
        filesIdentical (processOne fs st s).1 s2.content
          (candidatePath s2 (mdOf s2.audio)) = true := by
      rw [h1]
      intro s2 hs2
      exact h s2 (List.mem_cons_of_mem s hs2)
    obtain ⟨i1, i2, i3⟩ := ih (processOne fs st s).1 (processOne fs st s).2.1 hrest
    refine ⟨?_, ?_, ?_⟩
    · simp only [copy_files]
      rw [i1, h1]
    · simp only [copy_files]
      rw [i2, h3]
    · intro r hr
      simp only [copy_files, List.mem_cons] at hr
      rcases hr with hr | hr
      · rw [hr]; exact h2
      · exact i3 r hr

/-- Inverting membership in the resolved-file list. -/
theorem foundOf_mem {ls : List LineItem} {s : Source}
    (h : s ∈ ls.filterMap foundOf) :
    ∃ li ∈ ls, li.resolve = ResolveOutcome.found s := by
  obtain ⟨li, hli, hf⟩ := List.mem_filterMap.mp h
  refine ⟨li, hli, ?_⟩
  unfold foundOf at hf
  by_cases hk : lineKept li.text = true
  · rw [if_pos hk] at hf
    cases hr : li.resolve with
    | found s2 =>
      rw [hr] at hf
      simp only [Option.some.injEq] at hf
      rw [hf]
    | notFound => rw [hr] at hf; simp at hf
    | resolveError => rw [hr] at hf; simp at hf
  · rw [if_neg hk] at hf; simp at hf

/-- Claim C2 (amended): re-running the import yields only `skipped` records,
zero bytes copied and an unchanged destination whenever the destination left
by the first run holds, at every resolved file's unsuffixed candidate path,
content identical to that file — which is the case exactly when the first run
never had to assign a collision suffix.  (When the first run did assign a
suffix, the second run re-copies that item: see the counterexample.) -/
theorem claim2_rerun_only_skips (ls : List LineItem) (fs0 : FS)
    (H : ls.all (fun li => goodLine fs0 li) = true) :
    ((run (Playlist.readable ls) fs0).records.all
      (fun r => r.status == Status.skipped)) = true ∧
    (run (Playlist.readable ls) fs0).stats.total_size = 0 ∧
    (run (Playlist.readable ls) fs0).fs = fs0 := by
  have hparse := parseLines_eq ls initStats
  simp only [run, parse_m3u8]
  set pr := parseLines ls initStats with hpr
  have hts : pr.1.total_size = 0 := by rw [hparse]; simp [initStats]
  have hsrcs : pr.2 = ls.filterMap foundOf := by rw [hparse]
  have hid : ∀ s ∈ pr.2,
      filesIdentical fs0 s.content (candidatePath s (mdOf s.audio)) = true := by
    intro s hsmem
    rw [hsrcs] at hsmem
    obtain ⟨li, hli, hres⟩ := foundOf_mem hsmem
    have hg := List.all_eq_true.mp H li hli
    unfold goodLine at hg
    rw [hres] at hg
    exact hg
  by_cases he : pr.2.isEmpty = true
  · simp only [he, if_true]
    refine ⟨?_, ?_, ?_⟩ <;> first | exact hts | trivial
  · have he2 : pr.2.isEmpty = false := Bool.eq_false_iff.mpr he
    simp only [he2, Bool.false_eq_true, if_false]
    obtain ⟨k1, k2, k3⟩ := copy_files_all_identical pr.2 fs0 pr.1 hid
    refine ⟨?_, ?_, k1⟩
    · rw [List.all_eq_true]
      intro r hr
      have := k3 r hr
      simp [this]
    · rw [k2, hts]

/-- Witness for the amended C2: the one-file playlist `lsX` re-run against
the destination its first run produced satisfies the hypothesis and indeed
only skips. -/
theorem claim2_rerun_only_skips_witness :
    (lsX.all (fun li => goodLine fsAfterX li) = true) ∧
    (((run (Playlist.readable lsX) fsAfterX).records.all
        (fun r => r.status == Status.skipped)) = true ∧
      (run (Playlist.readable lsX) fsAfterX).stats.total_size = 0 ∧
      (run (Playlist.readable lsX) fsAfterX).fs = fsAfterX) :=
  ⟨by decide, claim2_rerun_only_skips lsX fsAfterX (by decide)⟩

/-- Lookup after a write. -/
theorem find_write (fs : FS) (p q : TPath) (c : Content) :
    FS.find (FS.write fs p c) q = if p = q then some c else FS.find fs q := by
  rfl

/-- A successful collision loop always lands on a path that does not exist. -/
theorem collideFrom_ok_free (fs : FS) (tp : TPath) :
    ∀ fuel c q, collideFrom fs tp c fuel = GenResult.ok q → FS.find fs q = none := by
  intro fuel
  induction fuel with
  | zero => intro c q h; simp [collideFrom] at h
  | succ fuel ih =>
    intro c q h
    by_cases h100 : c + 1 > 100
    · simp [collideFrom, h100] at h
    · cases hf : FS.find fs (suffixedPath tp c) with
      | some v =>
        simp only [collideFrom, h100, if_false, hf, Option.isSome_some, if_true] at h
        exact ih (c + 1) q h
      | none =>
        simp only [collideFrom, h100, if_false, hf, Option.isSome_none,
          Bool.false_eq_true, if_false, GenResult.ok.injEq] at h
        rw [← h]
        exact hf

/-- A planned target either does not exist yet, or exists with content
identical to the source. -/
theorem generate_ok_cases (fs : FS) (src : Source) (md : Metadata) (q : TPath)
    (h : generate_target_path fs src md = GenResult.ok q) :
    FS.find fs q = none ∨ filesIdentical fs src.content q = true := by
  unfold generate_target_path at h
  by_cases hc : ((FS.find fs (candidatePath src md)).isSome &&
      !(filesIdentical fs src.content (candidatePath src md))) = true
  · rw [if_pos hc] at h
    exact Or.inl (collideFrom_ok_free fs (candidatePath src md) 100 1 q h)
  · rw [if_neg hc] at h
    simp only [GenResult.ok.injEq] at h
    subst h
    rcases Bool.and_eq_false_iff.mp (Bool.eq_false_iff.mpr hc) with hs | hi
    · left
      cases hfind : FS.find fs (candidatePath src md) with
      | none => rfl
      | some v => rw [hfind] at hs; simp at hs
    · right
      cases hb : filesIdentical fs src.content (candidatePath src md) with
      | true => rfl
      | false => rw [hb] at hi; simp at hi

/-- An identical target exists. -/
theorem filesIdentical_some (fs : FS) (c : Content) (p : TPath)
    (h : filesIdentical fs c p = true) :
    ∃ c2, FS.find fs p = some c2 ∧ c2.hash = c.hash ∧ c2.size = c.size := by
  unfold filesIdentical at h
  cases hf : FS.find fs p with
  | none => rw [hf] at h; simp at h
  | some c2 =>
    rw [hf] at h
    simp only [Bool.and_eq_true, beq_iff_eq] at h
    exact ⟨c2, rfl, h.2.symm, h.1.symm⟩

/-- One copy step never overwrites: existing bindings survive. -/
theorem processOne_fs_extends (fs : FS) (st : Stats) (src : Source) :
    ∀ p c, FS.find fs p = some c → FS.find (processOne fs st src).1 p = some c := by
  intro p c h
  cases hg : generate_target_path fs src (mdOf src.audio) with
  | collisionExhausted => simpa [processOne, hg] using h
  | ok tp =>
    by_cases hid : filesIdentical fs src.content tp = true
    · simpa [processOne, hg, hid] using h
    · have hid2 : filesIdentical fs src.content tp = false := Bool.eq_false_iff.mpr hid
      by_cases hcf : src.copyFails = true
      · simpa [processOne, hg, hid2, hcf] using h
      · have hcf2 : src.copyFails = false := Bool.eq_false_iff.mpr hcf
        have hfree : FS.find fs tp = none := by
          rcases generate_ok_cases fs src (mdOf src.audio) tp hg with hf | hf
          · exact hf
          · rw [hf] at hid2; cases hid2
        have hne : tp ≠ p := by
          intro he
          rw [he] at hfree
          rw [hfree] at h
          cases h
        simp only [processOne, hg, hid2, Bool.false_eq_true, if_false, hcf2]
        rw [find_write]
        rw [if_neg hne]
        exact h

/-- The record a copy step emits points (through its target path) at a
binding of the resulting tree whose digest and size it carries. -/
theorem processOne_record_ok (fs : FS) (st : Stats) (src : Source) :
    ∀ p, (processOne fs st src).2.2.target_path = some p →
      ∃ c, FS.find (processOne fs st src).1 p = some c ∧
        (processOne fs st src).2.2.md5 = some c.hash ∧
        (processOne fs st src).2.2.size_bytes = c.size := by
  intro p htp
  cases hg : generate_target_path fs src (mdOf src.audio) with
  | collisionExhausted =>
    rw [show (processOne fs st src).2.2 = failedRecord src from by
      simp [processOne, hg]] at htp
    simp [failedRecord] at htp
  | ok tp =>
    by_cases hid : filesIdentical fs src.content tp = true
    · obtain ⟨c2, hc2, hh, hs⟩ := filesIdentical_some fs src.content tp hid
      have hrec : (processOne fs st src).2.2.target_path = some tp ∧
          (processOne fs st src).2.2.md5 = contentHashAt fs tp ∧
          (processOne fs st src).2.2.size_bytes = contentSizeAt fs tp ∧
          (processOne fs st src).1 = fs := by
        refine ⟨?_, ?_, ?_, ?_⟩ <;> simp [processOne, hg, hid]
      obtain ⟨hr1, hr2, hr3, hr4⟩ := hrec
      rw [hr1] at htp
      cases htp
      refine ⟨c2, ?_, ?_, ?_⟩
      · rw [hr4]; exact hc2
      · rw [hr2]; unfold contentHashAt; rw [hc2]; rfl
      · rw [hr3]; unfold contentSizeAt; rw [hc2]
    · have hid2 : filesIdentical fs src.content tp = false := Bool.eq_false_iff.mpr hid
      by_cases hcf : src.copyFails = true
      · rw [show (processOne fs st src).2.2 = failedRecord src from by
          simp [processOne, hg, hid2, hcf]] at htp
        simp [failedRecord] at htp
      · have hcf2 : src.copyFails = false := Bool.eq_false_iff.mpr hcf
        have hrec : (processOne fs st src).2.2.target_path = some tp ∧
            (processOne fs st src).2.2.md5 =
              contentHashAt (FS.write fs tp src.content) tp ∧
            (processOne fs st src).2.2.size_bytes =
              contentSizeAt (FS.write fs tp src.content) tp ∧
            (processOne fs st src).1 = FS.write fs tp src.content := by
          refine ⟨?_, ?_, ?_, ?_⟩ <;> simp [processOne, hg, hid2, hcf2]
        obtain ⟨hr1, hr2, hr3, hr4⟩ := hrec
        have hself : FS.find (FS.write fs tp src.content) tp = some src.content := by
          rw [find_write, if_pos rfl]
        rw [hr1] at htp
        cases htp
        refine ⟨src.content, ?_, ?_, ?_⟩
        · rw [hr4]; exact hself
        · rw [hr2]; unfold contentHashAt; rw [hself]; rfl
        · rw [hr3]; unfold contentSizeAt; rw [hself]

/-- Over a whole copy loop: the tree only grows, and every emitted record's
digest and size agree with the final tree at the record's target path. -/
theorem copy_files_records_ok (srcs : List Source) : ∀ fs st,
    (∀ p c, FS.find fs p = some c → FS.find (copy_files fs st srcs).1 p = some c) ∧
    (∀ r ∈ (copy_files fs st srcs).2.2, ∀ p, r.target_path = some p →
      ∃ c, FS.find (copy_files fs st srcs).1 p = some c ∧
        r.md5 = some c.hash ∧ r.size_bytes = c.size) := by
  induction srcs with
  | nil =>
    intro fs st
    refine ⟨fun p c h => h, ?_⟩
    intro r hr
    simp [copy_files] at hr
  | cons s rest ih =>
    intro fs st
    obtain ⟨e2, r2⟩ := ih (processOne fs st s).1 (processOne fs st s).2.1
    have e1 := processOne_fs_extends fs st s
    have rk := processOne_record_ok fs st s
    constructor
    · intro p c h
      simp only [copy_files]
      exact e2 p c (e1 p c h)
    · intro r hr p htp
      simp only [copy_files, List.mem_cons] at hr
      simp only [copy_files]
      rcases hr with hr | hr
      · obtain ⟨c, hc1, hc2, hc3⟩ := rk p (by rw [← hr]; exact htp)
        refine ⟨c, e2 p c hc1, ?_, ?_⟩
        · rw [hr]; exact hc2
        · rw [hr]; exact hc3
      · exact r2 r hr p htp

/-- Claim C3: after any run, two `ImportRecords` that share a (non-null)
target path carry the same content digest and the same size — equivalently,
no two records with different content hashes ever share a target path.
(The copy loop only ever writes to paths that do not yet exist, so the
content at a recorded target never changes after it is recorded.) -/
theorem claim3_shared_target_same_content (pl : Playlist) (fs0 : FS)
    (r1 r2 : Record) (p : TPath)
    (h1 : r1 ∈ (run pl fs0).records) (h2 : r2 ∈ (run pl fs0).records)
    (ht1 : r1.target_path = some p) (ht2 : r2.target_path = some p) :
    r1.md5 = r2.md5 ∧ r1.size_bytes = r2.size_bytes := by
  cases pl with
  | unreadable => simp [run, parse_m3u8] at h1
  | readable ls =>
    simp only [run, parse_m3u8] at h1 h2
    set pr := parseLines ls initStats with hpr
    by_cases he : pr.2.isEmpty = true
    · simp only [he, if_true] at h1
      simp at h1
    · have he2 : pr.2.isEmpty = false := Bool.eq_false_iff.mpr he
      simp only [he2, Bool.false_eq_true, if_false] at h1 h2
      obtain ⟨_, rok⟩ := copy_files_records_ok pr.2 fs0 pr.1
      obtain ⟨c1, hc1, hm1, hs1⟩ := rok r1 h1 p ht1
      obtain ⟨c2, hc2, hm2, hs2⟩ := rok r2 h2 p ht2
      rw [hc1] at hc2
      cases hc2
      exact ⟨by rw [hm1, hm2], by rw [hs1, hs2]⟩

/-- Witness for C3: the playlist listing `x.mp3` twice emits a success record
and a skipped record sharing the target `A/B/C.mp3`; their digests and sizes
agree. -/
theorem claim3_shared_target_same_content_witness :
    recXsuccess.md5 = recXskipped.md5 ∧ recXsuccess.size_bytes = recXskipped.size_bytes :=
  claim3_shared_target_same_content plXX [] recXsuccess recXskipped tpABC
    (by decide) (by decide) (by decide) (by decide)

/-- Claim C10: when the metadata carries no (truthy) title, the planned
destination filename is exactly the source file's original name with no
sanitisation applied to it; `sanitize_filename` is applied to the
constructed filename only in the branch where a title is present. -/
theorem claim10_titleless_keeps_name (fs : FS) (src : Source) (md : Metadata)
    (ht : truthyS md.title = false)
    (hfree : FS.find fs (candidatePath src md) = none) :
    generate_target_path fs src md =
      GenResult.ok ⟨sanitize_filename (artistOf md), sanitize_filename (albumOf md),
        src.name⟩ ∧
    buildFilename src md = src.name ∧
    (∀ src2 md2, truthyS md2.title = true →
      buildFilename src2 md2 = sanitize_filename (rawTitleFilename src2 md2)) := by
  have hb : buildFilename src md = src.name := by
    unfold buildFilename
    rw [ht]
    simp
  refine ⟨?_, hb, ?_⟩
  · unfold generate_target_path
    simp only [hfree, Option.isSome_none, Bool.false_and, Bool.false_eq_true, if_false]
    unfold candidatePath
    rw [hb]
  · intro src2 md2 h2
    unfold buildFilename
    rw [h2]
    simp

/-- Witness for C10: a title-less file named `a:b.mp3` keeps its original
name — colon included — even though sanitising that name would change it. -/
theorem claim10_titleless_keeps_name_witness :
    truthyS emptyMetadata.title = false ∧
    FS.find [] (candidatePath srcColon emptyMetadata) = none ∧
    (generate_target_path [] srcColon emptyMetadata =
      GenResult.ok ⟨sanitize_filename (artistOf emptyMetadata),
        sanitize_filename (albumOf emptyMetadata), srcColon.name⟩ ∧
     buildFilename srcColon emptyMetadata = srcColon.name ∧
     (∀ src2 md2, truthyS md2.title = true →
       buildFilename src2 md2 = sanitize_filename (rawTitleFilename src2 md2))) ∧
    srcColon.name ≠ sanitize_filename srcColon.name :=
  ⟨by decide, by decide,
   claim10_titleless_keeps_name [] srcColon emptyMetadata (by decide) (by decide),
   by decide⟩
